import Mathlib

/-!
Verification development for the TrueType hinting virtual machine of the
freetype2 repository (truetype driver).  The repository snapshot under
examination contains the objects-manager specification header
src/truetype/ttobjs.h, which declares the data model (TT_GraphicsState,
TT_Size_Metrics, TT_SizeRec, TT_DriverRec) and the size-program entry
points (tt_size_run_fpgm, tt_size_run_prep), and documents the CVT
scaling algorithm for non-square pixels.  The implementation files
(ttobjs.c, ttinterp.c, ttdriver.c) are not part of the snapshot, so the
executable behaviour below is modelled from the specification, faithful
to its words and to the header commentary; the declared record layouts
and names follow the header directly.

Numeric conventions: pixel quantities are 26.6 fixed-point values kept
as integers (one unit equals 1/64 pixel); scaling ratios and unit
vectors are kept as exact rationals, with 1 denoting the unit ratio.
Rounding is round-to-nearest with ties away from zero, as section 4.1
of the specification mandates.
-/

namespace FT

/-- Modelled from the spec: round-to-nearest with ties away from zero,
the rounding contract of the fixed-point math utilities (section 4.1);
the implementation file ftcalc.c is missing from the snapshot. -/
def rnd (q : ℚ) : ℤ :=
  if 0 ≤ q then ⌊q + 1 / 2⌋ else -⌊-q + 1 / 2⌋

/-- Modelled from the spec: the integer square root used for vector
normalization and the direction-dependent CVT ratio (sections 4.1 and
4.4); the implementation file ftcalc.c is missing from the snapshot.
For a nonnegative rational n/d this computes sqrt(n*d)/d with the
natural-number square root, which is exact on perfect squares. -/
def ratSqrt (q : ℚ) : ℚ :=
  (Nat.sqrt (q.num.toNat * q.den) : ℚ) / (q.den : ℚ)

/-- Metrics used by the TrueType size and context objects, following
the TT_Size_Metrics record of ttobjs.h: the ratios for non-square
pixels and the maximum ppem size.  The cached current ratio, the 16.16
scale and the rotated/stretched flags of the header record play no part
in the claims and are omitted; ratios are kept as exact rationals. -/
structure TT_Size_Metrics where
  x_ratio : ℚ
  y_ratio : ℚ
  ppem : ℕ
deriving DecidableEq, Repr

/-- Modelled from the spec: recomputing the size metrics from the two
pixel densities (section 4.4 and the ttobjs.h commentary): the maximum
ppem is the canonical CVT scaling size and each axis ratio is its ppem
divided by the maximum.  The implementation (tt_size_reset in ttobjs.c)
is missing from the snapshot. -/
def computeSizeMetrics (x_ppem y_ppem : ℕ) : TT_Size_Metrics :=
  { x_ratio := (x_ppem : ℚ) / ((max x_ppem y_ppem : ℕ) : ℚ)
    y_ratio := (y_ppem : ℚ) / ((max x_ppem y_ppem : ℕ) : ℚ)
    ppem := max x_ppem y_ppem }

/-- Modelled from the spec: the direction-dependent CVT ratio of
section 4.4 and lines 157-167 of ttobjs.h: the x ratio for a purely
horizontal projection vector, the y ratio for a purely vertical one,
and otherwise sqrt((proj.x * x_ratio)^2 + (proj.y * y_ratio)^2).  The
implementation (Current_Ratio in ttinterp.c) is missing from the
snapshot. -/
def currentRatio (m : TT_Size_Metrics) (proj : ℚ × ℚ) : ℚ :=
  if proj.2 = 0 then m.x_ratio
  else if proj.1 = 0 then m.y_ratio
  else ratSqrt ((proj.1 * m.x_ratio) ^ 2 + (proj.2 * m.y_ratio) ^ 2)

/-- Modelled from the spec: the current ppem observed by the
interpreter is ratio * ppem (lines 174-176 of ttobjs.h); the
implementation (Current_Ppem in ttinterp.c) is missing from the
snapshot. -/
def currentPpem (m : TT_Size_Metrics) (proj : ℚ × ℚ) : ℚ :=
  currentRatio m proj * (m.ppem : ℚ)

/-- The error taxonomy of section 7 of the specification. -/
inductive TT_Error where
  | AllocationFailure
  | InterpreterError
  | IndexOutOfRange
  | ExecutionTimeout
deriving DecidableEq, Repr

deriving instance DecidableEq for Except

/-- Modelled from the spec: reading a CVT entry returns ratio * value,
bounds-checked against the scaled table (sections 4.4 and 4.5); the
implementation (Read_CVT_Stretched in ttinterp.c) is missing from the
snapshot. -/
def cvtRead (m : TT_Size_Metrics) (proj : ℚ × ℚ) (cvt : List ℤ) (i : ℕ) :
    Except TT_Error ℤ :=
  if i < cvt.length then
    .ok (rnd (currentRatio m proj * (cvt.getD i 0 : ℚ)))
  else .error .IndexOutOfRange

/-- Modelled from the spec: writing a pixel value into the CVT stores
value / ratio, bounds-checked against the scaled table (sections 4.4
and 4.5); the implementation (Write_CVT_Stretched in ttinterp.c) is
missing from the snapshot. -/
def cvtWrite (m : TT_Size_Metrics) (proj : ℚ × ℚ) (cvt : List ℤ) (i : ℕ) (v : ℤ) :
    Except TT_Error (List ℤ) :=
  if i < cvt.length then
    .ok (cvt.set i (rnd ((v : ℚ) / currentRatio m proj)))
  else .error .IndexOutOfRange

/-! The glyph zone and the execution context.  TT_GlyphZoneRec is the
point zone of the header (tttypes.h is not in the snapshot; the spec
data model in section 3 describes current point arrays and the contour
end-index table).  TT_ExecContextRec is the interpreter instance of
section 4.5: operand stack, storage area, scaled CVT, zone, metrics
and the projection/freedom vectors of the graphics state. -/

/-- Modelled from the spec: a glyph zone with its current point array
(26.6 coordinates) and the contour end-index table (section 3); the
defining header tttypes.h is missing from the snapshot. -/
structure TT_GlyphZoneRec where
  cur : List (ℤ × ℤ)
  contours : List ℕ
deriving DecidableEq, Repr

/-- Modelled from the spec: the interpreter instance owning the operand
stack, storage area, scaled CVT, the active zone and the graphics-state
vectors (section 4.5); the defining ttinterp.h/ttinterp.c are missing
from the snapshot. -/
structure TT_ExecContextRec where
  pc : ℕ
  stack : List ℤ
  storage : List ℤ
  cvt : List ℤ
  zone : TT_GlyphZoneRec
  metrics : TT_Size_Metrics
  projVector : ℚ × ℚ
  freeVector : ℚ × ℚ
deriving DecidableEq

/-- Modelled from the spec: a representative closed opcode set covering
the instruction classes of section 4.5: stack manipulation (PUSH, POP,
CINDEX), storage access (RS, WS), CVT access (RCVT, WCVTP), point
movement and measurement (MDAP, GC), contour movement (SHC), the
current-ppem query (MPS) and control flow (JMPR).  The dispatcher
(ttinterp.c) is missing from the snapshot. -/
inductive Instr where
  | PUSH (v : ℤ)
  | POP
  | CINDEX
  | RS
  | WS
  | RCVT
  | WCVTP
  | MDAP
  | GC
  | SHC
  | MPS
  | JMPR
deriving DecidableEq, Repr

/-- Modelled from the spec: the round-to-grid rounding policy applied
coordinatewise, snapping a 26.6 value to the nearest multiple of one
pixel (section 4.5); ttinterp.c is missing from the snapshot. -/
def roundToGrid (v : ℤ) : ℤ :=
  64 * rnd ((v : ℚ) / 64)

/-- Round both coordinates of a point to the pixel grid. -/
def roundPoint (p : ℤ × ℤ) : ℤ × ℤ :=
  (roundToGrid p.1, roundToGrid p.2)

/-- First point index of contour c: one past the end of the previous
contour, or point 0 for the first contour. -/
def contourStart (z : TT_GlyphZoneRec) (c : ℕ) : ℕ :=
  if c = 0 then 0 else z.contours.getD (c - 1) 0 + 1

/-- Last point index of contour c, from the contour end-index table. -/
def contourEnd (z : TT_GlyphZoneRec) (c : ℕ) : ℕ :=
  z.contours.getD c 0

/-- Add a fixed delta to every point whose index lies in [a, b]; the
first argument of the running index is the position of the list head. -/
def shiftRange (a b : ℕ) (d : ℤ × ℤ) : ℕ → List (ℤ × ℤ) → List (ℤ × ℤ)
  | _, [] => []
  | j, p :: ps =>
      (if a ≤ j ∧ j ≤ b then (p.1 + d.1, p.2 + d.2) else p) :: shiftRange a b d (j + 1) ps

/-- Modelled from the spec: single-instruction dispatch.  Every access
driven by an index popped from the untrusted operand stack is
bounds-checked before any mutation and fails with IndexOutOfRange;
plain stack underflow is the malformed-bytecode error (sections 4.5 and
7).  The implementation (ttinterp.c) is missing from the snapshot. -/
def stepInstr (prog : List Instr) (s : TT_ExecContextRec) (ins : Instr) :
    Except TT_Error TT_ExecContextRec :=
  match ins with
  | .PUSH v => .ok { s with pc := s.pc + 1, stack := v :: s.stack }
  | .POP =>
    match s.stack with
    | [] => .error .InterpreterError
    | _ :: t => .ok { s with pc := s.pc + 1, stack := t }
  | .CINDEX =>
    match s.stack with
    | [] => .error .InterpreterError
    | k :: t =>
      if 0 < k ∧ k ≤ (t.length : ℤ) then
        .ok { s with pc := s.pc + 1, stack := t.getD (k - 1).toNat 0 :: t }
      else .error .IndexOutOfRange
  | .RS =>
    match s.stack with
    | [] => .error .InterpreterError
    | i :: t =>
      if 0 ≤ i ∧ i < (s.storage.length : ℤ) then
        .ok { s with pc := s.pc + 1, stack := s.storage.getD i.toNat 0 :: t }
      else .error .IndexOutOfRange
  | .WS =>
    match s.stack with
    | v :: i :: t =>
      if 0 ≤ i ∧ i < (s.storage.length : ℤ) then
        .ok { s with pc := s.pc + 1, stack := t, storage := s.storage.set i.toNat v }
      else .error .IndexOutOfRange
    | _ => .error .InterpreterError
  | .RCVT =>
    match s.stack with
    | [] => .error .InterpreterError
    | i :: t =>
      if 0 ≤ i then
        match cvtRead s.metrics s.projVector s.cvt i.toNat with
        | .error e => .error e
        | .ok w => .ok { s with pc := s.pc + 1, stack := w :: t }
      else .error .IndexOutOfRange
  | .WCVTP =>
    match s.stack with
    | v :: i :: t =>
      if 0 ≤ i then
        match cvtWrite s.metrics s.projVector s.cvt i.toNat v with
        | .error e => .error e
        | .ok cvt2 => .ok { s with pc := s.pc + 1, stack := t, cvt := cvt2 }
      else .error .IndexOutOfRange
    | _ => .error .InterpreterError
  | .MDAP =>
    match s.stack with
    | [] => .error .InterpreterError
    | i :: t =>
      if 0 ≤ i ∧ i < (s.zone.cur.length : ℤ) then
        .ok { s with
              pc := s.pc + 1
              stack := t
              zone := { s.zone with
                cur := s.zone.cur.set i.toNat (roundPoint (s.zone.cur.getD i.toNat (0, 0))) } }
      else .error .IndexOutOfRange
  | .GC =>
    match s.stack with
    | [] => .error .InterpreterError
    | i :: t =>
      if 0 ≤ i ∧ i < (s.zone.cur.length : ℤ) then
        .ok { s with
              pc := s.pc + 1
              stack := rnd (s.projVector.1 * ((s.zone.cur.getD i.toNat (0, 0)).1 : ℚ)
                          + s.projVector.2 * ((s.zone.cur.getD i.toNat (0, 0)).2 : ℚ)) :: t }
      else .error .IndexOutOfRange
  | .SHC =>
    match s.stack with
    | c :: d :: t =>
      if 0 ≤ c ∧ c < (s.zone.contours.length : ℤ) then
        .ok { s with
              pc := s.pc + 1
              stack := t
              zone := { s.zone with
                cur := shiftRange (contourStart s.zone c.toNat) (contourEnd s.zone c.toNat)
                  (rnd ((d : ℚ) * s.freeVector.1), rnd ((d : ℚ) * s.freeVector.2))
                  0 s.zone.cur } }
      else .error .IndexOutOfRange
    | _ => .error .InterpreterError
  | .MPS =>
      .ok { s with
            pc := s.pc + 1
            stack := rnd (currentPpem s.metrics s.projVector) :: s.stack }
  | .JMPR =>
    match s.stack with
    | [] => .error .InterpreterError
    | off :: t =>
      if 0 ≤ (s.pc : ℤ) + off ∧ (s.pc : ℤ) + off ≤ (prog.length : ℤ) then
        .ok { s with pc := ((s.pc : ℤ) + off).toNat, stack := t }
      else .error .IndexOutOfRange

/-- Modelled from the spec: the bounded run loop.  Execution halts when
the program counter passes the end of the stream; a failing instruction
stops the run, exposing the state from before that instruction; and
when the instruction-count ceiling is exhausted while instructions
remain the run ends with ExecutionTimeout (sections 4.5 and 5).  The
implementation (TT_RunIns in ttinterp.c) is missing from the
snapshot. -/
def exec : ℕ → List Instr → TT_ExecContextRec → TT_ExecContextRec × Option TT_Error
  | 0, prog, s =>
    match prog[s.pc]? with
    | none => (s, none)
    | some _ => (s, some .ExecutionTimeout)
  | fuel + 1, prog, s =>
    match prog[s.pc]? with
    | none => (s, none)
    | some ins =>
      match stepInstr prog s ins with
      | .error e => (s, some e)
      | .ok s2 => exec fuel prog s2

/-- Graphics-state defaults of section 4.3: projection and freedom
vectors along the positive x axis; empty stack at program entry. -/
def initExecContext (m : TT_Size_Metrics) : TT_ExecContextRec :=
  { pc := 0
    stack := []
    storage := List.replicate 8 0
    cvt := List.replicate 8 0
    zone := { cur := [], contours := [] }
    metrics := m
    projVector := (1, 0)
    freeVector := (1, 0) }

/-- An unconditional backward jump: the jump offset -1 returns control
to the PUSH forever, so only the instruction-count ceiling can stop the
run. -/
def loopProgram : List Instr :=
  [Instr.PUSH (-1), Instr.JMPR]

/-! The size-program cache of section 4.6, built over the TT_SizeRec
record of ttobjs.h.  The readiness flags follow the header exactly: if
negative, the fpgm (resp. prep) program was not executed yet, otherwise
the flag holds the returned error code.  The model instruments each
size with execution counters and an event trace so that caching and
ordering are observable. -/

/-- Observable startup and glyph events, newest last. -/
inductive SizeEvent where
  | fpgmRun
  | prepRun
  | glyphRun
deriving DecidableEq, Repr

/-- The TrueType size object, following TT_SizeRec of ttobjs.h:
metrics, the two readiness flags (negative means not yet executed,
nonnegative caches the returned error code), plus the font program,
the control-value program, the instruction budget, and the
instrumentation (execution counters and the event trace). -/
structure TT_SizeRec where
  ttmetrics : TT_Size_Metrics
  fpgm : List Instr
  prep : List Instr
  budget : ℕ
  bytecode_ready : ℤ
  cvt_ready : ℤ
  fpgmRuns : ℕ
  prepRuns : ℕ
  trace : List SizeEvent
deriving DecidableEq

/-- Numeric error codes cached in the readiness flags: zero for
success, positive for each error class, never negative. -/
def errorCode : Option TT_Error → ℤ
  | none => 0
  | some .AllocationFailure => 1
  | some .InterpreterError => 2
  | some .IndexOutOfRange => 3
  | some .ExecutionTimeout => 4

/-- Run one bytecode program to completion in a fresh execution
context and report its status code. -/
def programCode (m : TT_Size_Metrics) (prog : List Instr) (budget : ℕ) : ℤ :=
  errorCode (exec budget prog (initExecContext m)).2

/-- Modelled from the spec: tt_size_init_bytecode (declared in
ttobjs.h, body in the missing ttobjs.c) initialises a size with both
readiness flags negative: no startup program has executed yet. -/
def tt_size_init_bytecode (m : TT_Size_Metrics) (fpgm prep : List Instr)
    (budget : ℕ) : TT_SizeRec :=
  { ttmetrics := m
    fpgm := fpgm
    prep := prep
    budget := budget
    bytecode_ready := -1
    cvt_ready := -1
    fpgmRuns := 0
    prepRuns := 0
    trace := [] }

/-- Modelled from the spec: tt_size_run_fpgm (declared in ttobjs.h,
body in the missing ttobjs.c) executes the font program once, caches
the status code in bytecode_ready, and on any further call with
unchanged parameters returns the cached code without executing. -/
def tt_size_run_fpgm (size : TT_SizeRec) : TT_SizeRec × ℤ :=
  if 0 ≤ size.bytecode_ready then (size, size.bytecode_ready)
  else
    let c := programCode size.ttmetrics size.fpgm size.budget
    ({ size with
        bytecode_ready := c
        fpgmRuns := size.fpgmRuns + 1
        trace := size.trace ++ [SizeEvent.fpgmRun] }, c)

/-- Modelled from the spec: tt_size_run_prep (declared in ttobjs.h,
body in the missing ttobjs.c) executes the control-value program once
and caches the status code in cvt_ready.  Ordering is enforced here,
not left to callers: the font program is brought to completion first
(sections 4.6 and 5). -/
def tt_size_run_prep (size : TT_SizeRec) : TT_SizeRec × ℤ :=
  let s1 := (tt_size_run_fpgm size).1
  if 0 ≤ s1.cvt_ready then (s1, s1.cvt_ready)
  else
    let c := programCode s1.ttmetrics s1.prep s1.budget
    ({ s1 with
        cvt_ready := c
        prepRuns := s1.prepRuns + 1
        trace := s1.trace ++ [SizeEvent.prepRun] }, c)

/-- Modelled from the spec: running a glyph program first brings the
startup programs to readiness through the size-program cache, then
executes the glyph instruction stream (sections 4.5 and 4.6).  The
implementation (TT_RunIns callers in the missing ttgload.c) is not in
the snapshot. -/
def runGlyphProgram (size : TT_SizeRec) (gprog : List Instr) : TT_SizeRec × ℤ :=
  let s1 := (tt_size_run_prep size).1
  let c := programCode s1.ttmetrics gprog s1.budget
  ({ s1 with trace := s1.trace ++ [SizeEvent.glyphRun] }, c)

/-- Modelled from the spec: tt_size_reset (declared in ttobjs.h, body
in the missing ttobjs.c) recomputes the size metrics from the new
pixel densities and invalidates both readiness flags, as the data
model of section 3 requires whenever resolution or point size
changes. -/
def tt_size_reset (size : TT_SizeRec) (x_ppem y_ppem : ℕ) : TT_SizeRec :=
  { size with
      ttmetrics := computeSizeMetrics x_ppem y_ppem
      bytecode_ready := -1
      cvt_ready := -1 }

/-- Size states reachable from initialisation by any sequence of
public cache operations with unchanged rendering parameters. -/
inductive Reached : TT_SizeRec → Prop where
  | init (m : TT_Size_Metrics) (fpgm prep : List Instr) (budget : ℕ) :
      Reached (tt_size_init_bytecode m fpgm prep budget)
  | fpgm {s : TT_SizeRec} : Reached s → Reached (tt_size_run_fpgm s).1
  | prep {s : TT_SizeRec} : Reached s → Reached (tt_size_run_prep s).1
  | glyph {s : TT_SizeRec} (g : List Instr) : Reached s → Reached (runGlyphProgram s g).1

/-! The driver object of ttobjs.h: the interpreter-version selector
lives in TT_DriverRec, once per driver; TT_SizeRec has no version
field, so every size of a driver observes the driver value. -/

/-- The TrueType driver object, following TT_DriverRec of ttobjs.h:
the per-driver interpreter-version selector and the sizes belonging to
the driver. -/
structure TT_DriverRec where
  interpreter_version : ℕ
  sizes : List TT_SizeRec
deriving DecidableEq

/-- The interpreter version a size (or an execution context created
for it) observes: there is no per-size copy, the driver field is the
single source (TT_DriverRec in ttobjs.h). -/
def observedInterpreterVersion (driver : TT_DriverRec) (_size : TT_SizeRec) : ℕ :=
  driver.interpreter_version

/-- Modelled from the spec: changing the interpreter-version selector
on a driver updates the single per-driver field and invalidates the
readiness flags of every size of the driver, as the data model of
section 3 requires; the property-setting code (ttdriver.c) is missing
from the snapshot. -/
def setInterpreterVersion (driver : TT_DriverRec) (v : ℕ) : TT_DriverRec :=
  { interpreter_version := v
    sizes := driver.sizes.map fun s =>
      { s with bytecode_ready := -1, cvt_ready := -1 } }

/-- Consistency of the readiness flags with the execution counters: a
flag is negative exactly when the corresponding startup program never
executed. -/
def FlagsConsistent (s : TT_SizeRec) : Prop :=
  (s.bytecode_ready < 0 ↔ s.fpgmRuns = 0) ∧ (s.cvt_ready < 0 ↔ s.prepRuns = 0)

theorem run_prep_eq_of_cvt_ready {s : TT_SizeRec}
    (hc : 0 ≤ (tt_size_run_fpgm s).1.cvt_ready) :
    tt_size_run_prep s = ((tt_size_run_fpgm s).1, (tt_size_run_fpgm s).1.cvt_ready) := by
  unfold tt_size_run_prep
  simp [hc]

theorem run_prep_eq_of_not_cvt_ready {s : TT_SizeRec}
    (hc : ¬ 0 ≤ (tt_size_run_fpgm s).1.cvt_ready) :
    tt_size_run_prep s =
      ({ (tt_size_run_fpgm s).1 with
          cvt_ready := programCode (tt_size_run_fpgm s).1.ttmetrics
            (tt_size_run_fpgm s).1.prep (tt_size_run_fpgm s).1.budget
          prepRuns := (tt_size_run_fpgm s).1.prepRuns + 1
          trace := (tt_size_run_fpgm s).1.trace ++ [SizeEvent.prepRun] },
        programCode (tt_size_run_fpgm s).1.ttmetrics
          (tt_size_run_fpgm s).1.prep (tt_size_run_fpgm s).1.budget) := by
  unfold tt_size_run_prep
  simp [hc]

/-- The shape of every reachable event trace: nothing yet, exactly one
font-program run, or one font-program run, one control-value run and
some number of glyph runs, in that order, with the readiness flags
matching. -/
def TraceShape (s : TT_SizeRec) : Prop :=
  (s.trace = [] ∧ s.bytecode_ready < 0 ∧ s.cvt_ready < 0)
  ∨ (s.trace = [SizeEvent.fpgmRun] ∧ 0 ≤ s.bytecode_ready ∧ s.cvt_ready < 0)
  ∨ (∃ k, s.trace = SizeEvent.fpgmRun :: SizeEvent.prepRun ::
        List.replicate k SizeEvent.glyphRun
      ∧ 0 ≤ s.bytecode_ready ∧ 0 ≤ s.cvt_ready)

/-! Supporting lemmas on rounding and on the rational square root. -/

theorem rnd_close (q : ℚ) : |(rnd q : ℚ) - q| ≤ 1 / 2 := by
  unfold rnd
  by_cases h : 0 ≤ q
  · simp only [h, if_true]
    rw [abs_le]
    constructor
    · have := Int.lt_floor_add_one (q + 1 / 2)
      linarith
    · have := Int.floor_le (q + 1 / 2)
      linarith
  · simp only [h, if_false]
    rw [abs_le]
    constructor
    · have := Int.floor_le (-q + 1 / 2)
      push_cast
      linarith
    · have := Int.lt_floor_add_one (-q + 1 / 2)
      push_cast
      linarith

theorem ratSqrt_nonneg (q : ℚ) : 0 ≤ ratSqrt q := by
  unfold ratSqrt
  positivity

theorem ratSqrt_pos {q : ℚ} (hq : 0 < q) : 0 < ratSqrt q := by
  unfold ratSqrt
  apply div_pos
  · have hnum : 0 < q.num := Rat.num_pos.mpr hq
    have h1 : 0 < q.num.toNat * q.den :=
      Nat.mul_pos (by omega) q.pos
    exact_mod_cast Nat.sqrt_pos.mpr h1
  · exact_mod_cast q.pos

theorem ratSqrt_le_one {q : ℚ} (hq0 : 0 ≤ q) (hq1 : q ≤ 1) : ratSqrt q ≤ 1 := by
  unfold ratSqrt
  rw [div_le_one (by exact_mod_cast q.pos)]
  have hnum_le : q.num ≤ (q.den : ℤ) := by
    have h := hq1
    rw [← Rat.num_div_den q, div_le_one (by exact_mod_cast q.pos)] at h
    exact_mod_cast h
  have hnat : q.num.toNat ≤ q.den := by omega
  have hsq : Nat.sqrt (q.num.toNat * q.den) ≤ Nat.sqrt (q.den * q.den) :=
    Nat.sqrt_le_sqrt (Nat.mul_le_mul_right _ hnat)
  rw [Nat.sqrt_eq] at hsq
  exact_mod_cast hsq

theorem ratSqrt_one : ratSqrt 1 = 1 := by
  norm_num [ratSqrt]

/-! Bounds on the direction-dependent ratio for valid metrics and a
unit projection vector. -/

theorem computeSizeMetrics_x_ratio_pos {xp yp : ℕ} (hx : 0 < xp) (hy : 0 < yp) :
    0 < (computeSizeMetrics xp yp).x_ratio := by
  unfold computeSizeMetrics
  have : (0 : ℚ) < ((max xp yp : ℕ) : ℚ) := by
    exact_mod_cast Nat.lt_of_lt_of_le hx (le_max_left xp yp)
  exact div_pos (by exact_mod_cast hx) this

theorem computeSizeMetrics_y_ratio_pos {xp yp : ℕ} (hx : 0 < xp) (hy : 0 < yp) :
    0 < (computeSizeMetrics xp yp).y_ratio := by
  unfold computeSizeMetrics
  have : (0 : ℚ) < ((max xp yp : ℕ) : ℚ) := by
    exact_mod_cast Nat.lt_of_lt_of_le hx (le_max_left xp yp)
  exact div_pos (by exact_mod_cast hy) this

theorem computeSizeMetrics_x_ratio_le_one {xp yp : ℕ} (hx : 0 < xp) (hy : 0 < yp) :
    (computeSizeMetrics xp yp).x_ratio ≤ 1 := by
  unfold computeSizeMetrics
  have hpos : (0 : ℚ) < ((max xp yp : ℕ) : ℚ) := by
    exact_mod_cast Nat.lt_of_lt_of_le hx (le_max_left xp yp)
  rw [div_le_one hpos]
  exact_mod_cast le_max_left xp yp

theorem computeSizeMetrics_y_ratio_le_one {xp yp : ℕ} (hx : 0 < xp) (hy : 0 < yp) :
    (computeSizeMetrics xp yp).y_ratio ≤ 1 := by
  unfold computeSizeMetrics
  have hpos : (0 : ℚ) < ((max xp yp : ℕ) : ℚ) := by
    exact_mod_cast Nat.lt_of_lt_of_le hx (le_max_left xp yp)
  rw [div_le_one hpos]
  exact_mod_cast le_max_right xp yp

theorem currentRatio_pos {m : TT_Size_Metrics} {p : ℚ × ℚ}
    (hxr : 0 < m.x_ratio) (hyr : 0 < m.y_ratio)
    (hp : p.1 ^ 2 + p.2 ^ 2 = 1) : 0 < currentRatio m p := by
  unfold currentRatio
  by_cases h2 : p.2 = 0
  · simpa [h2] using hxr
  · by_cases h1 : p.1 = 0
    · simpa [h2, h1] using hyr
    · simp only [h2, h1, if_false]
      apply ratSqrt_pos
      have hx2 : 0 < (p.1 * m.x_ratio) ^ 2 := by positivity
      have hy2 : 0 ≤ (p.2 * m.y_ratio) ^ 2 := sq_nonneg _
      linarith

theorem currentRatio_le_one {m : TT_Size_Metrics} {p : ℚ × ℚ}
    (hxr0 : 0 < m.x_ratio) (hxr : m.x_ratio ≤ 1)
    (hyr0 : 0 < m.y_ratio) (hyr : m.y_ratio ≤ 1)
    (hp : p.1 ^ 2 + p.2 ^ 2 = 1) : currentRatio m p ≤ 1 := by
  unfold currentRatio
  by_cases h2 : p.2 = 0
  · simpa [h2] using hxr
  · by_cases h1 : p.1 = 0
    · simpa [h2, h1] using hyr
    · simp only [h2, h1, if_false]
      apply ratSqrt_le_one
      · positivity
      · have hx2 : (p.1 * m.x_ratio) ^ 2 ≤ p.1 ^ 2 := by
          rw [mul_pow]
          have : m.x_ratio ^ 2 ≤ 1 := by nlinarith
          nlinarith [sq_nonneg p.1]
        have hy2 : (p.2 * m.y_ratio) ^ 2 ≤ p.2 ^ 2 := by
          rw [mul_pow]
          have : m.y_ratio ^ 2 ≤ 1 := by nlinarith
          nlinarith [sq_nonneg p.2]
        linarith

/-- Round-trip accuracy of fixed-point scaling: scaling down by a ratio
in (0, 1], rounding, scaling back up and rounding again moves a value
by at most one 26.6 unit. -/
theorem rnd_div_mul_close (r : ℚ) (hr0 : 0 < r) (hr1 : r ≤ 1) (v : ℤ) :
    |(rnd (r * (rnd ((v : ℚ) / r) : ℚ)) : ℚ) - (v : ℚ)| ≤ 1 := by
  set w : ℚ := (rnd ((v : ℚ) / r) : ℚ) with hw
  have h1 : |w - (v : ℚ) / r| ≤ 1 / 2 := rnd_close _
  have h2 : |r * w - (v : ℚ)| ≤ 1 / 2 := by
    have : r * w - (v : ℚ) = r * (w - (v : ℚ) / r) := by
      field_simp
      ring
    rw [this, abs_mul, abs_of_pos hr0]
    calc r * |w - (v : ℚ) / r| ≤ 1 * (1 / 2) :=
          mul_le_mul hr1 h1 (abs_nonneg _) (by norm_num)
      _ = 1 / 2 := by norm_num
  have h3 : |(rnd (r * w) : ℚ) - r * w| ≤ 1 / 2 := rnd_close _
  calc |(rnd (r * w) : ℚ) - (v : ℚ)|
      = |((rnd (r * w) : ℚ) - r * w) + (r * w - (v : ℚ))| := by ring_nf
    _ ≤ |(rnd (r * w) : ℚ) - r * w| + |r * w - (v : ℚ)| := abs_add _ _
    _ ≤ 1 / 2 + 1 / 2 := add_le_add h3 h2
    _ = 1 := by norm_num

/-! Supporting lemmas about the size-program cache. -/

theorem errorCode_nonneg (o : Option TT_Error) : 0 ≤ errorCode o := by
  cases o with
  | none => norm_num [errorCode]
  | some e => cases e <;> norm_num [errorCode]

theorem programCode_nonneg (m : TT_Size_Metrics) (prog : List Instr) (budget : ℕ) :
    0 ≤ programCode m prog budget :=
  errorCode_nonneg _

theorem run_fpgm_cached {s : TT_SizeRec} (h : 0 ≤ s.bytecode_ready) :
    tt_size_run_fpgm s = (s, s.bytecode_ready) := by
  simp [tt_size_run_fpgm, h]

theorem run_fpgm_not_cached {s : TT_SizeRec} (h : ¬ 0 ≤ s.bytecode_ready) :
    tt_size_run_fpgm s =
      ({ s with
          bytecode_ready := programCode s.ttmetrics s.fpgm s.budget
          fpgmRuns := s.fpgmRuns + 1
          trace := s.trace ++ [SizeEvent.fpgmRun] },
        programCode s.ttmetrics s.fpgm s.budget) := by
  simp [tt_size_run_fpgm, h]

theorem run_fpgm_ready (s : TT_SizeRec) :
    0 ≤ (tt_size_run_fpgm s).1.bytecode_ready := by
  by_cases h : 0 ≤ s.bytecode_ready
  · rw [run_fpgm_cached h]
    exact h
  · rw [run_fpgm_not_cached h]
    exact programCode_nonneg _ _ _

theorem run_fpgm_cvt (s : TT_SizeRec) :
    (tt_size_run_fpgm s).1.cvt_ready = s.cvt_ready := by
  by_cases h : 0 ≤ s.bytecode_ready
  · rw [run_fpgm_cached h]
  · rw [run_fpgm_not_cached h]

theorem run_fpgm_prepRuns (s : TT_SizeRec) :
    (tt_size_run_fpgm s).1.prepRuns = s.prepRuns := by
  by_cases h : 0 ≤ s.bytecode_ready
  · rw [run_fpgm_cached h]
  · rw [run_fpgm_not_cached h]

theorem run_prep_cached {s : TT_SizeRec} (h1 : 0 ≤ s.bytecode_ready)
    (h2 : 0 ≤ s.cvt_ready) : tt_size_run_prep s = (s, s.cvt_ready) := by
  unfold tt_size_run_prep
  rw [run_fpgm_cached h1]
  simp [h2]

theorem run_prep_ready1 (s : TT_SizeRec) :
    0 ≤ (tt_size_run_prep s).1.bytecode_ready := by
  unfold tt_size_run_prep
  by_cases h : 0 ≤ (tt_size_run_fpgm s).1.cvt_ready
  · simpa [h] using run_fpgm_ready s
  · simpa [h] using run_fpgm_ready s

theorem run_prep_ready2 (s : TT_SizeRec) :
    0 ≤ (tt_size_run_prep s).1.cvt_ready := by
  unfold tt_size_run_prep
  by_cases h : 0 ≤ (tt_size_run_fpgm s).1.cvt_ready
  · simp [h]
  · simpa [h] using programCode_nonneg (tt_size_run_fpgm s).1.ttmetrics
      (tt_size_run_fpgm s).1.prep (tt_size_run_fpgm s).1.budget

theorem flagsConsistent_fpgm {s : TT_SizeRec} (h : FlagsConsistent s) :
    FlagsConsistent (tt_size_run_fpgm s).1 := by
  by_cases hb : 0 ≤ s.bytecode_ready
  · rw [run_fpgm_cached hb]
    exact h
  · rw [run_fpgm_not_cached hb]
    have hpc := programCode_nonneg s.ttmetrics s.fpgm s.budget
    refine ⟨?_, h.2⟩
    show programCode s.ttmetrics s.fpgm s.budget < 0 ↔ s.fpgmRuns + 1 = 0
    omega

theorem flagsConsistent_prep {s : TT_SizeRec} (h : FlagsConsistent s) :
    FlagsConsistent (tt_size_run_prep s).1 := by
  have h1 : FlagsConsistent (tt_size_run_fpgm s).1 := flagsConsistent_fpgm h
  by_cases hc : 0 ≤ (tt_size_run_fpgm s).1.cvt_ready
  · rw [run_prep_eq_of_cvt_ready hc]
    exact h1
  · rw [run_prep_eq_of_not_cvt_ready hc]
    have hpc := programCode_nonneg (tt_size_run_fpgm s).1.ttmetrics
      (tt_size_run_fpgm s).1.prep (tt_size_run_fpgm s).1.budget
    refine ⟨h1.1, ?_⟩
    show programCode (tt_size_run_fpgm s).1.ttmetrics
        (tt_size_run_fpgm s).1.prep (tt_size_run_fpgm s).1.budget < 0
      ↔ (tt_size_run_fpgm s).1.prepRuns + 1 = 0
    omega

theorem flagsConsistent_glyph {s : TT_SizeRec} (g : List Instr)
    (h : FlagsConsistent s) : FlagsConsistent (runGlyphProgram s g).1 := by
  have h1 : FlagsConsistent (tt_size_run_prep s).1 := flagsConsistent_prep h
  unfold runGlyphProgram
  exact h1

theorem reached_flagsConsistent {s : TT_SizeRec} (h : Reached s) :
    FlagsConsistent s := by
  induction h with
  | init m fpgm prep budget =>
      constructor <;> simp [tt_size_init_bytecode]
  | fpgm _ ih => exact flagsConsistent_fpgm ih
  | prep _ ih => exact flagsConsistent_prep ih
  | glyph g _ ih => exact flagsConsistent_glyph g ih

theorem traceShape_fpgm {s : TT_SizeRec} (h : TraceShape s) :
    TraceShape (tt_size_run_fpgm s).1 := by
  rcases h with ⟨ht, hb, hc⟩ | ⟨ht, hb, hc⟩ | ⟨k, ht, hb, hc⟩
  · rw [run_fpgm_not_cached (by omega)]
    refine Or.inr (Or.inl ⟨?_, programCode_nonneg _ _ _, hc⟩)
    simp [ht]
  · rw [run_fpgm_cached hb]
    exact Or.inr (Or.inl ⟨ht, hb, hc⟩)
  · rw [run_fpgm_cached hb]
    exact Or.inr (Or.inr ⟨k, ht, hb, hc⟩)

theorem traceShape_prep {s : TT_SizeRec} (h : TraceShape s) :
    TraceShape (tt_size_run_prep s).1 := by
  have h1 : TraceShape (tt_size_run_fpgm s).1 := traceShape_fpgm h
  have hb1 : 0 ≤ (tt_size_run_fpgm s).1.bytecode_ready := run_fpgm_ready s
  unfold tt_size_run_prep
  rcases h1 with ⟨ht, hb, hc⟩ | ⟨ht, hb, hc⟩ | ⟨k, ht, hb, hc⟩
  · omega
  · have hcc : ¬ 0 ≤ (tt_size_run_fpgm s).1.cvt_ready := by omega
    simp only [hcc, if_false]
    refine Or.inr (Or.inr ⟨0, ?_, by simpa using hb, by
      simpa using programCode_nonneg _ _ _⟩)
    simp [ht]
  · have hcc : 0 ≤ (tt_size_run_fpgm s).1.cvt_ready := hc
    simp only [hcc, if_true]
    exact Or.inr (Or.inr ⟨k, ht, hb, hc⟩)

theorem traceShape_glyph {s : TT_SizeRec} (g : List Instr) (h : TraceShape s) :
    TraceShape (runGlyphProgram s g).1 := by
  have h1 : TraceShape (tt_size_run_prep s).1 := traceShape_prep h
  have hb1 : 0 ≤ (tt_size_run_prep s).1.bytecode_ready := run_prep_ready1 s
  have hc1 : 0 ≤ (tt_size_run_prep s).1.cvt_ready := run_prep_ready2 s
  unfold runGlyphProgram
  rcases h1 with ⟨ht, hb, hc⟩ | ⟨ht, hb, hc⟩ | ⟨k, ht, hb, hc⟩
  · omega
  · omega
  · refine Or.inr (Or.inr ⟨k + 1, ?_, by simpa using hb, by simpa using hc⟩)
    simp only [ht]
    simp [List.replicate_succ']

theorem reached_traceShape {s : TT_SizeRec} (h : Reached s) : TraceShape s := by
  induction h with
  | init m fpgm prep budget =>
      exact Or.inl (by simp [tt_size_init_bytecode])
  | fpgm _ ih => exact traceShape_fpgm ih
  | prep _ ih => exact traceShape_prep ih
  | glyph g _ ih => exact traceShape_glyph g ih

/-! Supporting lemma for the contour-shift frame condition. -/

theorem shiftRange_getElem_outside (a b : ℕ) (d : ℤ × ℤ) :
    ∀ (l : List (ℤ × ℤ)) (base j : ℕ), ¬(a ≤ base + j ∧ base + j ≤ b) →
      (shiftRange a b d base l)[j]? = l[j]? := by
  intro l
  induction l with
  | nil =>
      intro base j h
      simp [shiftRange]
  | cons p ps ih =>
      intro base j h
      cases j with
      | zero =>
          have hcond : ¬(a ≤ base ∧ base ≤ b) := by omega
          simp [shiftRange, hcond]
      | succ j =>
          have h2 : ¬(a ≤ (base + 1) + j ∧ (base + 1) + j ≤ b) := by omega
          simpa [shiftRange] using ih (base + 1) j h2

/-! Claim theorems. -/

/-- C7: for every pair of pixel densities, the size metrics satisfy
ppem = max(x_ppem, y_ppem), x_ratio = x_ppem/ppem, y_ratio =
y_ppem/ppem; both ratios are at most one and the ratio of the axis that
defines ppem is exactly one; and the invariant is re-established by the
size-reset operation run on any size or transform change, which also
invalidates the readiness flags. -/
theorem size_metrics_ratio_invariant (x_ppem y_ppem : ℕ)
    (hx : 0 < x_ppem) (hy : 0 < y_ppem) :
    (computeSizeMetrics x_ppem y_ppem).ppem = max x_ppem y_ppem
    ∧ (computeSizeMetrics x_ppem y_ppem).x_ratio
        = (x_ppem : ℚ) / ((max x_ppem y_ppem : ℕ) : ℚ)
    ∧ (computeSizeMetrics x_ppem y_ppem).y_ratio
        = (y_ppem : ℚ) / ((max x_ppem y_ppem : ℕ) : ℚ)
    ∧ (computeSizeMetrics x_ppem y_ppem).x_ratio ≤ 1
    ∧ (computeSizeMetrics x_ppem y_ppem).y_ratio ≤ 1
    ∧ (y_ppem ≤ x_ppem → (computeSizeMetrics x_ppem y_ppem).x_ratio = 1)
    ∧ (x_ppem ≤ y_ppem → (computeSizeMetrics x_ppem y_ppem).y_ratio = 1)
    ∧ ((computeSizeMetrics x_ppem y_ppem).x_ratio = 1
        ∨ (computeSizeMetrics x_ppem y_ppem).y_ratio = 1)
    ∧ (∀ size : TT_SizeRec,
        (tt_size_reset size x_ppem y_ppem).ttmetrics = computeSizeMetrics x_ppem y_ppem
        ∧ (tt_size_reset size x_ppem y_ppem).bytecode_ready < 0
        ∧ (tt_size_reset size x_ppem y_ppem).cvt_ready < 0) := by
  have hxr1 : y_ppem ≤ x_ppem → (computeSizeMetrics x_ppem y_ppem).x_ratio = 1 := by
    intro h
    unfold computeSizeMetrics
    show (x_ppem : ℚ) / ((max x_ppem y_ppem : ℕ) : ℚ) = 1
    rw [max_eq_left h]
    exact div_self (by exact_mod_cast hx.ne')
  have hyr1 : x_ppem ≤ y_ppem → (computeSizeMetrics x_ppem y_ppem).y_ratio = 1 := by
    intro h
    unfold computeSizeMetrics
    show (y_ppem : ℚ) / ((max x_ppem y_ppem : ℕ) : ℚ) = 1
    rw [max_eq_right h]
    exact div_self (by exact_mod_cast hy.ne')
  refine ⟨rfl, rfl, rfl,
    computeSizeMetrics_x_ratio_le_one hx hy,
    computeSizeMetrics_y_ratio_le_one hx hy,
    hxr1, hyr1, ?_, ?_⟩
  · rcases le_total y_ppem x_ppem with h | h
    · exact Or.inl (hxr1 h)
    · exact Or.inr (hyr1 h)
  · intro size
    exact ⟨rfl, by norm_num [tt_size_reset], by norm_num [tt_size_reset]⟩

/-- Witness for C7 at the pixel densities 14 and 10. -/
theorem size_metrics_ratio_invariant_witness :
    (computeSizeMetrics 14 10).ppem = max 14 10 :=
  (size_metrics_ratio_invariant 14 10 (by norm_num) (by norm_num)).1

/-- C8: with equal pixel densities the direction-dependent CVT ratio is
exactly the unit value for every unit projection vector, including the
vectors handled by the square-root branch. -/
theorem square_pixel_unit_ratio (ppem : ℕ) (hp : 0 < ppem) (p : ℚ × ℚ)
    (hunit : p.1 ^ 2 + p.2 ^ 2 = 1) :
    currentRatio (computeSizeMetrics ppem ppem) p = 1 := by
  have hone : ((max ppem ppem : ℕ) : ℚ) = (ppem : ℚ) := by
    rw [max_self]
  have hxr : (computeSizeMetrics ppem ppem).x_ratio = 1 := by
    show (ppem : ℚ) / ((max ppem ppem : ℕ) : ℚ) = 1
    rw [hone]
    exact div_self (by exact_mod_cast hp.ne')
  have hyr : (computeSizeMetrics ppem ppem).y_ratio = 1 := by
    show (ppem : ℚ) / ((max ppem ppem : ℕ) : ℚ) = 1
    rw [hone]
    exact div_self (by exact_mod_cast hp.ne')
  unfold currentRatio
  by_cases h2 : p.2 = 0
  · simpa [h2] using hxr
  · by_cases h1 : p.1 = 0
    · simpa [h2, h1] using hyr
    · simp only [h2, h1, if_false]
      rw [hxr, hyr, mul_one, mul_one, hunit, ratSqrt_one]

/-- Witness for C8: equal densities 12 and the oblique unit projection
vector (3/5, 4/5), which exercises the square-root branch. -/
theorem square_pixel_unit_ratio_witness :
    currentRatio (computeSizeMetrics 12 12) (3 / 5, 4 / 5) = 1 :=
  square_pixel_unit_ratio 12 (by norm_num) (3 / 5, 4 / 5) (by norm_num)

/-- C9: the effective current ppem equals ratio * ppem with the same
direction-dependent ratio used for CVT access and the canonical maximum
ppem; it is what the MPS instruction pushes, and on the defining axes
it recovers the original pixel densities. -/
theorem current_ppem_ratio_scaled (x_ppem y_ppem : ℕ)
    (hx : 0 < x_ppem) (hy : 0 < y_ppem) (p : ℚ × ℚ) :
    currentPpem (computeSizeMetrics x_ppem y_ppem) p
        = currentRatio (computeSizeMetrics x_ppem y_ppem) p
            * ((max x_ppem y_ppem : ℕ) : ℚ)
    ∧ (∀ (prog : List Instr) (s : TT_ExecContextRec),
        stepInstr prog s Instr.MPS
          = .ok { s with
              pc := s.pc + 1
              stack := rnd (currentPpem s.metrics s.projVector) :: s.stack })
    ∧ currentPpem (computeSizeMetrics x_ppem y_ppem) (1, 0) = (x_ppem : ℚ)
    ∧ currentPpem (computeSizeMetrics x_ppem y_ppem) (0, 1) = (y_ppem : ℚ) := by
  have hmax : (0 : ℚ) < ((max x_ppem y_ppem : ℕ) : ℚ) := by
    exact_mod_cast Nat.lt_of_lt_of_le hx (le_max_left x_ppem y_ppem)
  refine ⟨rfl, fun prog s => rfl, ?_, ?_⟩
  · show currentRatio (computeSizeMetrics x_ppem y_ppem) (1, 0)
        * (((computeSizeMetrics x_ppem y_ppem).ppem : ℕ) : ℚ) = (x_ppem : ℚ)
    have : currentRatio (computeSizeMetrics x_ppem y_ppem) ((1 : ℚ), (0 : ℚ))
        = (computeSizeMetrics x_ppem y_ppem).x_ratio := by
      unfold currentRatio
      norm_num
    rw [this]
    show (x_ppem : ℚ) / ((max x_ppem y_ppem : ℕ) : ℚ) * ((max x_ppem y_ppem : ℕ) : ℚ)
        = (x_ppem : ℚ)
    exact div_mul_cancel₀ _ hmax.ne'
  · show currentRatio (computeSizeMetrics x_ppem y_ppem) (0, 1)
        * (((computeSizeMetrics x_ppem y_ppem).ppem : ℕ) : ℚ) = (y_ppem : ℚ)
    have : currentRatio (computeSizeMetrics x_ppem y_ppem) ((0 : ℚ), (1 : ℚ))
        = (computeSizeMetrics x_ppem y_ppem).y_ratio := by
      unfold currentRatio
      norm_num
    rw [this]
    show (y_ppem : ℚ) / ((max x_ppem y_ppem : ℕ) : ℚ) * ((max x_ppem y_ppem : ℕ) : ℚ)
        = (y_ppem : ℚ)
    exact div_mul_cancel₀ _ hmax.ne'

/-- Witness for C9 at the pixel densities 14 and 10 and the horizontal
projection vector. -/
theorem current_ppem_ratio_scaled_witness :
    currentPpem (computeSizeMetrics 14 10) (1, 0) = (14 : ℚ) :=
  (current_ppem_ratio_scaled 14 10 (by norm_num) (by norm_num) (1, 0)).2.2.1

/-- C2: the CVT scaling ratio is the x ratio for a purely horizontal
projection vector, the y ratio for a purely vertical one, and the
square root of (p.x * x_ratio)^2 + (p.y * y_ratio)^2 otherwise; an
in-range CVT read returns the ratio-scaled entry and an in-range CVT
write stores the pixel value divided by the ratio. -/
theorem cvt_access_ratio_scaling (m : TT_Size_Metrics) (p : ℚ × ℚ)
    (cvt : List ℤ) (i : ℕ) (hi : i < cvt.length) (v : ℤ) :
    (p.2 = 0 → currentRatio m p = m.x_ratio)
    ∧ (p.2 ≠ 0 → p.1 = 0 → currentRatio m p = m.y_ratio)
    ∧ (p.2 ≠ 0 → p.1 ≠ 0 → currentRatio m p
        = ratSqrt ((p.1 * m.x_ratio) ^ 2 + (p.2 * m.y_ratio) ^ 2))
    ∧ cvtRead m p cvt i = .ok (rnd (currentRatio m p * (cvt.getD i 0 : ℚ)))
    ∧ cvtWrite m p cvt i v = .ok (cvt.set i (rnd ((v : ℚ) / currentRatio m p))) := by
  refine ⟨?_, ?_, ?_, ?_, ?_⟩
  · intro h2
    simp [currentRatio, h2]
  · intro h2 h1
    simp [currentRatio, h2, h1]
  · intro h2 h1
    simp [currentRatio, h2, h1]
  · simp [cvtRead, hi]
  · simp [cvtWrite, hi]

/-- Witness for C2 at the metrics for densities 14 and 10, the
horizontal projection vector and a one-entry table. -/
theorem cvt_access_ratio_scaling_witness :
    currentRatio (computeSizeMetrics 14 10) (1, 0)
      = (computeSizeMetrics 14 10).x_ratio :=
  (cvt_access_ratio_scaling (computeSizeMetrics 14 10) (1, 0) [6400] 0
    (by norm_num) 0).1 rfl

/-- C10: the interpreter-version selector is a single per-driver field:
all sizes of a driver observe the same value, and changing it updates
that one field and invalidates the readiness flags of every size of
the driver. -/
theorem interpreter_version_driver_scope (driver : TT_DriverRec) (v : ℕ) :
    (∀ s1 s2 : TT_SizeRec,
        observedInterpreterVersion driver s1 = observedInterpreterVersion driver s2)
    ∧ (setInterpreterVersion driver v).interpreter_version = v
    ∧ (∀ s : TT_SizeRec, s ∈ (setInterpreterVersion driver v).sizes →
        observedInterpreterVersion (setInterpreterVersion driver v) s = v
        ∧ s.bytecode_ready < 0 ∧ s.cvt_ready < 0) := by
  refine ⟨fun s1 s2 => rfl, rfl, ?_⟩
  intro s hs
  simp only [setInterpreterVersion, List.mem_map] at hs
  obtain ⟨s0, hmem, rfl⟩ := hs
  exact ⟨rfl, by norm_num, by norm_num⟩

/-- Witness for C10 on a driver with no sizes, version change to 40. -/
theorem interpreter_version_driver_scope_witness :
    (setInterpreterVersion { interpreter_version := 35, sizes := [] } 40).interpreter_version
      = 40 :=
  (interpreter_version_driver_scope { interpreter_version := 35, sizes := [] } 40).2.1

/-- C3: writing any pixel value into the CVT and reading the same entry
back under the same unit projection vector returns a value within one
26.6 unit of the original. -/
theorem cvt_round_trip_tolerance (x_ppem y_ppem : ℕ)
    (hx : 0 < x_ppem) (hy : 0 < y_ppem) (p : ℚ × ℚ)
    (hp : p.1 ^ 2 + p.2 ^ 2 = 1) (cvt : List ℤ) (i : ℕ)
    (hi : i < cvt.length) (v : ℤ) :
    ∃ (cvt2 : List ℤ) (w : ℤ),
      cvtWrite (computeSizeMetrics x_ppem y_ppem) p cvt i v = .ok cvt2
      ∧ cvtRead (computeSizeMetrics x_ppem y_ppem) p cvt2 i = .ok w
      ∧ |w - v| ≤ 1 := by
  have hr0 : 0 < currentRatio (computeSizeMetrics x_ppem y_ppem) p :=
    currentRatio_pos (computeSizeMetrics_x_ratio_pos hx hy)
      (computeSizeMetrics_y_ratio_pos hx hy) hp
  have hr1 : currentRatio (computeSizeMetrics x_ppem y_ppem) p ≤ 1 :=
    currentRatio_le_one (computeSizeMetrics_x_ratio_pos hx hy)
      (computeSizeMetrics_x_ratio_le_one hx hy)
      (computeSizeMetrics_y_ratio_pos hx hy)
      (computeSizeMetrics_y_ratio_le_one hx hy) hp
  refine ⟨cvt.set i (rnd ((v : ℚ) / currentRatio (computeSizeMetrics x_ppem y_ppem) p)),
    rnd (currentRatio (computeSizeMetrics x_ppem y_ppem) p
      * (rnd ((v : ℚ) / currentRatio (computeSizeMetrics x_ppem y_ppem) p) : ℚ)),
    ?_, ?_, ?_⟩
  · simp [cvtWrite, hi]
  · have hlen : i < (cvt.set i
        (rnd ((v : ℚ) / currentRatio (computeSizeMetrics x_ppem y_ppem) p))).length := by
      simpa using hi
    have hget : (cvt.set i
        (rnd ((v : ℚ) / currentRatio (computeSizeMetrics x_ppem y_ppem) p))).getD i 0
        = rnd ((v : ℚ) / currentRatio (computeSizeMetrics x_ppem y_ppem) p) := by
      rw [List.getD_eq_getElem?_getD, List.getElem?_set_eq_of_lt _ hi]
      rfl
    unfold cvtRead
    rw [if_pos hlen, hget]
  · have h := rnd_div_mul_close (currentRatio (computeSizeMetrics x_ppem y_ppem) p)
      hr0 hr1 v
    have hcast : |((rnd (currentRatio (computeSizeMetrics x_ppem y_ppem) p
        * (rnd ((v : ℚ) / currentRatio (computeSizeMetrics x_ppem y_ppem) p) : ℚ)) - v : ℤ) : ℚ)|
        ≤ 1 := by
      push_cast
      exact h
    exact_mod_cast hcast

/-- Witness for C3: densities 14 and 10, the oblique unit projection
vector (3/5, 4/5) and the pixel value 64 (one pixel). -/
theorem cvt_round_trip_tolerance_witness :
    ∃ (cvt2 : List ℤ) (w : ℤ),
      cvtWrite (computeSizeMetrics 14 10) (3 / 5, 4 / 5) [0] 0 64 = .ok cvt2
      ∧ cvtRead (computeSizeMetrics 14 10) (3 / 5, 4 / 5) cvt2 0 = .ok w
      ∧ |w - 64| ≤ 1 :=
  cvt_round_trip_tolerance 14 10 (by norm_num) (by norm_num) (3 / 5, 4 / 5)
    (by norm_num) [0] 0 (by norm_num) 64

/-- C4: on every reachable size state, a readiness flag is negative
exactly when the corresponding startup program has not executed; once
nonnegative it caches the status code and further calls with unchanged
parameters return it without executing; and a second consecutive glyph
run never re-invokes the startup programs. -/
theorem size_program_cache_flags (s : TT_SizeRec) (hs : Reached s) :
    (s.bytecode_ready < 0 ↔ s.fpgmRuns = 0)
    ∧ (s.cvt_ready < 0 ↔ s.prepRuns = 0)
    ∧ (0 ≤ s.bytecode_ready → tt_size_run_fpgm s = (s, s.bytecode_ready))
    ∧ (0 ≤ s.bytecode_ready → 0 ≤ s.cvt_ready →
        tt_size_run_prep s = (s, s.cvt_ready))
    ∧ tt_size_run_fpgm (tt_size_run_fpgm s).1
        = ((tt_size_run_fpgm s).1, (tt_size_run_fpgm s).1.bytecode_ready)
    ∧ (∀ g g2 : List Instr,
        (runGlyphProgram (runGlyphProgram s g).1 g2).1.fpgmRuns
            = (runGlyphProgram s g).1.fpgmRuns
        ∧ (runGlyphProgram (runGlyphProgram s g).1 g2).1.prepRuns
            = (runGlyphProgram s g).1.prepRuns) := by
  have hfc := reached_flagsConsistent hs
  refine ⟨hfc.1, hfc.2, fun h => run_fpgm_cached h,
    fun h1 h2 => run_prep_cached h1 h2,
    run_fpgm_cached (run_fpgm_ready s), ?_⟩
  intro g g2
  have hbX : 0 ≤ ((runGlyphProgram s g).1).bytecode_ready := by
    show 0 ≤ (tt_size_run_prep s).1.bytecode_ready
    exact run_prep_ready1 s
  have hcX : 0 ≤ ((runGlyphProgram s g).1).cvt_ready := by
    show 0 ≤ (tt_size_run_prep s).1.cvt_ready
    exact run_prep_ready2 s
  constructor
  · show (tt_size_run_prep ((runGlyphProgram s g).1)).1.fpgmRuns
        = (runGlyphProgram s g).1.fpgmRuns
    rw [run_prep_cached hbX hcX]
  · show (tt_size_run_prep ((runGlyphProgram s g).1)).1.prepRuns
        = (runGlyphProgram s g).1.prepRuns
    rw [run_prep_cached hbX hcX]

/-- Witness for C4 on a freshly initialised size. -/
theorem size_program_cache_flags_witness :
    (tt_size_init_bytecode (computeSizeMetrics 1 1) [] [] 0).bytecode_ready < 0
      ↔ (tt_size_init_bytecode (computeSizeMetrics 1 1) [] [] 0).fpgmRuns = 0 :=
  (size_program_cache_flags _
    (Reached.init (computeSizeMetrics 1 1) [] [] 0)).1

/-- C5: on every reachable size state, every control-value-program
event in the trace is preceded by a completed font-program event, and
every glyph-program event is preceded by completed font-program and
control-value-program events; the order is enforced by the size-program
cache for every interleaving of the public operations, not by the
callers. -/
theorem startup_program_ordering (s : TT_SizeRec) (hs : Reached s) :
    (∀ t1 t2 : List SizeEvent, s.trace = t1 ++ SizeEvent.prepRun :: t2 →
        SizeEvent.fpgmRun ∈ t1)
    ∧ (∀ t1 t2 : List SizeEvent, s.trace = t1 ++ SizeEvent.glyphRun :: t2 →
        SizeEvent.fpgmRun ∈ t1 ∧ SizeEvent.prepRun ∈ t1) := by
  have hshape := reached_traceShape hs
  rcases hshape with ⟨ht, -, -⟩ | ⟨ht, -, -⟩ | ⟨k, ht, -, -⟩
  · constructor <;> intro t1 t2 h <;> rw [ht] at h <;>
      exact absurd (List.append_eq_nil.mp h.symm).2 (List.cons_ne_nil _ _)
  · constructor <;> intro t1 t2 h <;> rw [ht] at h
    · cases t1 with
      | nil => simp at h
      | cons a t1 => simp at h
    · cases t1 with
      | nil => simp at h
      | cons a t1 => simp at h
  · constructor <;> intro t1 t2 h <;> rw [ht] at h
    · cases t1 with
      | nil => simp at h
      | cons a t1 =>
          injection h with h1 h2
          rw [← h1]
          exact List.mem_cons_self _ _
    · cases t1 with
      | nil => simp at h
      | cons a t1 =>
          injection h with h1 h2
          cases t1 with
          | nil => simp at h2
          | cons b t1 =>
              injection h2 with h3 h4
              subst h1
              subst h3
              exact ⟨List.mem_cons_self _ _,
                List.mem_cons_of_mem _ (List.mem_cons_self _ _)⟩

/-- Witness for C5: after one glyph run on a fresh size the trace is
the font-program event, the control-value event, then the glyph event,
and the ordering theorem applies to its decomposition at the
control-value event. -/
theorem startup_program_ordering_witness :
    SizeEvent.fpgmRun ∈ [SizeEvent.fpgmRun] :=
  (startup_program_ordering
      (runGlyphProgram (tt_size_init_bytecode (computeSizeMetrics 1 1) [] [] 0) []).1
      (Reached.glyph [] (Reached.init (computeSizeMetrics 1 1) [] [] 0))).1
    [SizeEvent.fpgmRun] [SizeEvent.glyphRun] (by rfl)

/-- In the backward-jump loop the interpreter alternates between the
PUSH at address 0 and the JMPR at address 1 forever, so the run ends
with ExecutionTimeout for every instruction budget, from either loop
state. -/
theorem loopProgram_aux (fuel : ℕ) :
    ∀ s : TT_ExecContextRec,
      (s.pc = 0 → (exec fuel loopProgram s).2 = some TT_Error.ExecutionTimeout)
      ∧ (s.pc = 1 → ∀ t : List ℤ, s.stack = (-1 : ℤ) :: t →
          (exec fuel loopProgram s).2 = some TT_Error.ExecutionTimeout) := by
  induction fuel with
  | zero =>
      intro s
      constructor
      · intro h0
        simp [exec, loopProgram, h0]
      · intro h1 t ht
        simp [exec, loopProgram, h1]
  | succ n ih =>
      intro s
      constructor
      · intro h0
        have hstep : stepInstr loopProgram s (Instr.PUSH (-1))
            = .ok { s with pc := s.pc + 1, stack := (-1 : ℤ) :: s.stack } := rfl
        have hins : loopProgram[s.pc]? = some (Instr.PUSH (-1)) := by
          rw [h0]
          rfl
        show (exec (n + 1) loopProgram s).2 = some TT_Error.ExecutionTimeout
        simp only [exec, hins, hstep]
        exact (ih _).2 (by simp [h0]) s.stack rfl
      · intro h1 t ht
        have hins : loopProgram[s.pc]? = some Instr.JMPR := by
          rw [h1]
          rfl
        have hcond : 0 ≤ (s.pc : ℤ) + (-1) ∧ (s.pc : ℤ) + (-1) ≤ (loopProgram.length : ℤ) := by
          rw [h1]
          norm_num [loopProgram]
        have hstep : stepInstr loopProgram s Instr.JMPR
            = .ok { s with pc := ((s.pc : ℤ) + (-1)).toNat, stack := t } := by
          unfold stepInstr
          rw [ht]
          simp [hcond]
        show (exec (n + 1) loopProgram s).2 = some TT_Error.ExecutionTimeout
        simp only [exec, hins, hstep]
        exact (ih _).1 (by simp [h1])

/-- C6: an instruction stream consisting of an unconditional backward
jump loops forever, and the bounded run loop ends it with
ExecutionTimeout for every value of the configurable instruction-count
ceiling; the status cached by the size-program cache for such a program
is the ExecutionTimeout code. -/
theorem infinite_loop_times_out (budget : ℕ) (m : TT_Size_Metrics) :
    (exec budget loopProgram (initExecContext m)).2 = some TT_Error.ExecutionTimeout
    ∧ programCode m loopProgram budget = errorCode (some TT_Error.ExecutionTimeout) := by
  have h := (loopProgram_aux budget (initExecContext m)).1 rfl
  exact ⟨h, by rw [programCode, h]⟩

/-- C1: every instruction that reaches a point, contour, stack slot,
CVT entry or storage word through an index taken from the untrusted
operand stack fails with IndexOutOfRange when the index is out of
range; a failing instruction leaves the whole zone as it was, because
the run loop exposes the state from before that instruction; and an
in-range point or contour move leaves every point outside the
addressed point or contour unchanged. -/
theorem ttvm_untrusted_index_bounds_checked (prog : List Instr) (s : TT_ExecContextRec) :
    (∀ i t, s.stack = i :: t → ¬(0 ≤ i ∧ i < (s.zone.cur.length : ℤ)) →
        stepInstr prog s Instr.MDAP = .error TT_Error.IndexOutOfRange
        ∧ stepInstr prog s Instr.GC = .error TT_Error.IndexOutOfRange)
    ∧ (∀ i t, s.stack = i :: t → ¬(0 ≤ i ∧ i < (s.storage.length : ℤ)) →
        stepInstr prog s Instr.RS = .error TT_Error.IndexOutOfRange)
    ∧ (∀ v i t, s.stack = v :: i :: t → ¬(0 ≤ i ∧ i < (s.storage.length : ℤ)) →
        stepInstr prog s Instr.WS = .error TT_Error.IndexOutOfRange)
    ∧ (∀ i t, s.stack = i :: t → ¬(0 ≤ i ∧ i < (s.cvt.length : ℤ)) →
        stepInstr prog s Instr.RCVT = .error TT_Error.IndexOutOfRange)
    ∧ (∀ v i t, s.stack = v :: i :: t → ¬(0 ≤ i ∧ i < (s.cvt.length : ℤ)) →
        stepInstr prog s Instr.WCVTP = .error TT_Error.IndexOutOfRange)
    ∧ (∀ k t, s.stack = k :: t → ¬(0 < k ∧ k ≤ (t.length : ℤ)) →
        stepInstr prog s Instr.CINDEX = .error TT_Error.IndexOutOfRange)
    ∧ (∀ c d t, s.stack = c :: d :: t → ¬(0 ≤ c ∧ c < (s.zone.contours.length : ℤ)) →
        stepInstr prog s Instr.SHC = .error TT_Error.IndexOutOfRange)
    ∧ (∀ i t s2, s.stack = i :: t → stepInstr prog s Instr.MDAP = .ok s2 →
        ∀ j : ℕ, j ≠ i.toNat → s2.zone.cur[j]? = s.zone.cur[j]?)
    ∧ (∀ c d t s2, s.stack = c :: d :: t → stepInstr prog s Instr.SHC = .ok s2 →
        ∀ j : ℕ, ¬(contourStart s.zone c.toNat ≤ j ∧ j ≤ contourEnd s.zone c.toNat) →
          s2.zone.cur[j]? = s.zone.cur[j]?)
    ∧ (∀ ins e fuel, prog[s.pc]? = some ins →
        stepInstr prog s ins = .error e → exec (fuel + 1) prog s = (s, some e)) := by
  refine ⟨?_, ?_, ?_, ?_, ?_, ?_, ?_, ?_, ?_, ?_⟩
  · intro i t hstack hnotin
    constructor <;> simp [stepInstr, hstack, hnotin]
  · intro i t hstack hnotin
    simp [stepInstr, hstack, hnotin]
  · intro v i t hstack hnotin
    simp [stepInstr, hstack, hnotin]
  · intro i t hstack hnotin
    by_cases h0 : 0 ≤ i
    · have hge : ¬(i.toNat < s.cvt.length) := by omega
      simp [stepInstr, hstack, h0, cvtRead, hge]
    · simp [stepInstr, hstack, h0]
  · intro v i t hstack hnotin
    by_cases h0 : 0 ≤ i
    · have hge : ¬(i.toNat < s.cvt.length) := by omega
      simp [stepInstr, hstack, h0, cvtWrite, hge]
    · simp [stepInstr, hstack, h0]
  · intro k t hstack hnotin
    simp [stepInstr, hstack, hnotin]
  · intro c d t hstack hnotin
    simp [stepInstr, hstack, hnotin]
  · intro i t s2 hstack hok j hj
    by_cases hc : 0 ≤ i ∧ i < (s.zone.cur.length : ℤ)
    · simp [stepInstr, hstack, hc] at hok
      subst hok
      exact List.getElem?_set_ne (Ne.symm hj)
    · simp [stepInstr, hstack, hc] at hok
  · intro c d t s2 hstack hok j hj
    by_cases hc : 0 ≤ c ∧ c < (s.zone.contours.length : ℤ)
    · simp [stepInstr, hstack, hc] at hok
      subst hok
      exact shiftRange_getElem_outside _ _ _ s.zone.cur 0 j (by simpa using hj)
    · simp [stepInstr, hstack, hc] at hok
  · intro ins e fuel hins hstep
    simp only [exec, hins, hstep]

/-- Witness for C1: the point index 5 on a one-point zone makes the
point-move instruction fail with IndexOutOfRange. -/
theorem ttvm_untrusted_index_bounds_checked_witness :
    stepInstr []
      { pc := 0
        stack := [5]
        storage := []
        cvt := []
        zone := { cur := [(0, 0)], contours := [] }
        metrics := { x_ratio := 1, y_ratio := 1, ppem := 1 }
        projVector := (1, 0)
        freeVector := (1, 0) } Instr.MDAP
      = .error TT_Error.IndexOutOfRange :=
  ((ttvm_untrusted_index_bounds_checked []
      { pc := 0
        stack := [5]
        storage := []
        cvt := []
        zone := { cur := [(0, 0)], contours := [] }
        metrics := { x_ratio := 1, y_ratio := 1, ppem := 1 }
        projVector := (1, 0)
        freeVector := (1, 0) }).1 5 [] rfl (by decide)).1

end FT
